import Mathlib

/-!
# Verification of the smart-meter stock management ledger

A shallow embedding of `src/app.py`: a Streamlit application that keeps a
ledger of stock-out transactions in a CSV file (`data/stock_records.csv`),
lets installers create transactions, administrators approve or reject them,
and managers view grouped summaries.

The embedding models:
* the persisted CSV form (`save_data` / `load_data`, with `pandas`-style
  minimal quoting of fields containing separators or quotes);
* transaction-id generation from a wall-clock timestamp
  (`generate_txn_id`, `strftime` with second precision);
* the installer submission handler, the admin approve/reject handler, the
  status filter of the admin dashboard, and the manager group-by summary.

Python strings become `String` / `List Char`; the quantities (entered through
`st.number_input` with `min_value=0` and cast with `int(...)`) become `Nat`;
the CSV file on disk becomes `Option (List Char)` (`none` = file missing).
-/

set_option maxRecDepth 100000

namespace SmartMeter

/-! ## Decimal rendering of numbers

`pandas.to_csv` writes the integer quantities in plain decimal and
`read_csv` reads them back; `strftime` writes zero-padded decimal fields.
`natToChars` is the decimal rendering, `charsToNat?` the reading side, and
`padNat` the zero-padded rendering of width `w`.
-/

/-- The character of a decimal digit `d < 10`. -/
def digitChar (d : Nat) : Char := Char.ofNat (48 + d)

/-- The value of a decimal digit character. -/
def charVal (c : Char) : Nat := c.toNat - 48

/-- Structural (fuel-indexed) most-significant-first decimal rendering. -/
def natToCharsAux : Nat → Nat → List Char
  | 0, _ => []
  | fuel + 1, n => if n = 0 then [] else natToCharsAux fuel (n / 10) ++ [digitChar (n % 10)]

/-- Decimal rendering of a natural number, as `str`/`to_csv` write it. -/
def natToChars (n : Nat) : List Char :=
  if n = 0 then ['0'] else natToCharsAux n n

/-- Reading a decimal field back, as `read_csv` parses an integer column. -/
def charsToNat? (cs : List Char) : Option Nat :=
  if cs ≠ [] ∧ cs.all Char.isDigit then
    some (Nat.ofDigits 10 ((cs.map charVal).reverse))
  else none

/-- Zero-padded decimal rendering of width `w`, as `strftime` writes
`%Y`/`%m`/`%d`/`%H`/`%M`/`%S`. -/
def padNat (w n : Nat) : List Char :=
  List.replicate (w - (natToChars n).length) '0' ++ natToChars n

theorem charVal_digitChar {d : Nat} (hd : d < 10) : charVal (digitChar d) = d := by
  interval_cases d <;> decide

theorem isDigit_digitChar {d : Nat} (hd : d < 10) : (digitChar d).isDigit = true := by
  interval_cases d <;> decide

theorem natToCharsAux_eq (fuel : Nat) : ∀ n : Nat, n ≤ fuel →
    natToCharsAux fuel n = ((Nat.digits 10 n).map digitChar).reverse := by
  induction fuel with
  | zero =>
    intro n hn
    have : n = 0 := Nat.le_zero.mp hn
    subst this
    simp [natToCharsAux]
  | succ fuel ih =>
    intro n hn
    by_cases h0 : n = 0
    · subst h0; simp [natToCharsAux]
    · have hpos : 0 < n := Nat.pos_of_ne_zero h0
      have hdiv : n / 10 ≤ fuel := by
        have : n / 10 < n := Nat.div_lt_self hpos (by norm_num)
        omega
      rw [natToCharsAux, if_neg h0, ih (n / 10) hdiv,
        Nat.digits_def' (b := 10) (by norm_num) hpos]
      simp

theorem natToChars_eq {n : Nat} (h0 : n ≠ 0) :
    natToChars n = ((Nat.digits 10 n).map digitChar).reverse := by
  rw [natToChars, if_neg h0]
  exact natToCharsAux_eq n n le_rfl

theorem natToChars_ne_nil (n : Nat) : natToChars n ≠ [] := by
  by_cases h0 : n = 0
  · subst h0; simp [natToChars]
  · rw [natToChars_eq h0]
    have := (Nat.digits_ne_nil_iff_ne_zero (b := 10)).mpr h0
    simp_all

theorem mem_natToChars_isDigit {c : Char} {n : Nat} (hc : c ∈ natToChars n) :
    c.isDigit = true := by
  by_cases h0 : n = 0
  · subst h0; simp [natToChars] at hc; subst hc; decide
  · rw [natToChars_eq h0] at hc
    simp only [List.mem_reverse, List.mem_map] at hc
    obtain ⟨d, hd, rfl⟩ := hc
    exact isDigit_digitChar (Nat.digits_lt_base (by norm_num) hd)

theorem charsToNat_natToChars (n : Nat) : charsToNat? (natToChars n) = some n := by
  by_cases h0 : n = 0
  · subst h0; decide
  · rw [charsToNat?, if_pos]
    · congr 1
      rw [natToChars_eq h0]
      have hmap : ((Nat.digits 10 n).map digitChar).map charVal = Nat.digits 10 n := by
        rw [List.map_map]
        refine List.map_congr_left (fun d hd => ?_) |>.trans (List.map_id _)
        exact charVal_digitChar (Nat.digits_lt_base (by norm_num) hd)
      rw [← List.map_reverse, List.reverse_reverse, hmap]
      exact Nat.ofDigits_digits 10 n
    · exact ⟨natToChars_ne_nil n, List.all_eq_true.mpr fun c hc => mem_natToChars_isDigit hc⟩

theorem ofDigits_replicate_zero (b k : Nat) :
    Nat.ofDigits b (List.replicate k 0) = 0 := by
  induction k with
  | zero => simp [Nat.ofDigits]
  | succ k ih => rw [List.replicate_succ, Nat.ofDigits_cons, ih]; ring

theorem charsToNat_padNat (w n : Nat) : charsToNat? (padNat w n) = some n := by
  rw [padNat, charsToNat?, if_pos]
  · congr 1
    rw [List.map_append, List.reverse_append, Nat.ofDigits_append]
    have hrep : (List.replicate (w - (natToChars n).length) '0').map charVal
        = List.replicate (w - (natToChars n).length) 0 := by
      rw [List.map_replicate]; rfl
    rw [hrep, List.reverse_replicate, ofDigits_replicate_zero, Nat.mul_zero, Nat.add_zero]
    have := charsToNat_natToChars n
    rw [charsToNat?, if_pos] at this
    · exact Option.some.inj this
    · exact ⟨natToChars_ne_nil n, List.all_eq_true.mpr fun c hc => mem_natToChars_isDigit hc⟩
  · constructor
    · intro h
      exact natToChars_ne_nil n (List.append_eq_nil.mp h).2
    · simp only [List.all_append, Bool.and_eq_true]
      refine ⟨?_, ?_⟩
      · exact List.all_eq_true.mpr fun c hc => by
          rw [List.eq_of_mem_replicate hc]; decide
      · exact List.all_eq_true.mpr fun c hc => mem_natToChars_isDigit hc

theorem padNat_injective {w a b : Nat} (h : padNat w a = padNat w b) : a = b := by
  have := charsToNat_padNat w a
  rw [h, charsToNat_padNat w b] at this
  exact (Option.some.inj this).symm

theorem natToChars_length_le {w n : Nat} (hw : 1 ≤ w) (hn : n < 10 ^ w) :
    (natToChars n).length ≤ w := by
  by_cases h0 : n = 0
  · subst h0; simpa [natToChars] using hw
  · rw [natToChars_eq h0]
    simp only [List.length_reverse, List.length_map]
    rw [Nat.digits_len 10 n (by norm_num) h0]
    have := Nat.log_lt_of_lt_pow h0 hn
    omega

theorem padNat_length {w n : Nat} (hw : 1 ≤ w) (hn : n < 10 ^ w) :
    (padNat w n).length = w := by
  rw [padNat, List.length_append, List.length_replicate]
  have := natToChars_length_le hw hn
  omega

/-! ## Timestamps and transaction identifiers

`generate_txn_id` in `src/app.py` is
`f"TXN-{datetime.now().strftime('%Y%m%d%H%M%S')}"`; the `Date` column is
written with `datetime.now().strftime("%Y-%m-%d %H:%M:%S")`.  A `Timestamp`
is a wall-clock reading truncated to second precision.
-/

/-- A wall-clock timestamp at second precision. -/
structure Timestamp where
  year : Nat
  month : Nat
  day : Nat
  hour : Nat
  minute : Nat
  second : Nat
deriving DecidableEq, Repr

/-- A calendar reading `datetime.now()` can actually produce: a four-digit
year (so `%Y` is four characters whatever the platform's padding convention)
and in-range calendar fields. -/
def Timestamp.valid (t : Timestamp) : Prop :=
  1000 ≤ t.year ∧ t.year ≤ 9999 ∧ 1 ≤ t.month ∧ t.month ≤ 12 ∧
  1 ≤ t.day ∧ t.day ≤ 31 ∧ t.hour ≤ 23 ∧ t.minute ≤ 59 ∧ t.second ≤ 59

instance (t : Timestamp) : Decidable t.valid := by
  unfold Timestamp.valid; infer_instance

/-- `strftime('%Y%m%d%H%M%S')`. -/
def formatCompact (t : Timestamp) : List Char :=
  padNat 4 t.year ++ padNat 2 t.month ++ padNat 2 t.day ++
  padNat 2 t.hour ++ padNat 2 t.minute ++ padNat 2 t.second

/-- `strftime("%Y-%m-%d %H:%M:%S")`, the `Date` column value. -/
def formatDate (t : Timestamp) : List Char :=
  padNat 4 t.year ++ ['-'] ++ padNat 2 t.month ++ ['-'] ++ padNat 2 t.day ++
  [' '] ++ padNat 2 t.hour ++ [':'] ++ padNat 2 t.minute ++ [':'] ++ padNat 2 t.second

/-- `generate_txn_id` (src/app.py line 71-72). -/
def generate_txn_id (now : Timestamp) : String :=
  "TXN-" ++ String.mk (formatCompact now)

theorem formatCompact_injective {t₁ t₂ : Timestamp}
    (h₁ : t₁.valid) (h₂ : t₂.valid) (h : formatCompact t₁ = formatCompact t₂) :
    t₁ = t₂ := by
  obtain ⟨hy₁, hy₁', hmo₁, hmo₁', hd₁, hd₁', hh₁, hmi₁, hs₁⟩ := h₁
  obtain ⟨hy₂, hy₂', hmo₂, hmo₂', hd₂, hd₂', hh₂, hmi₂, hs₂⟩ := h₂
  rw [formatCompact, formatCompact] at h
  simp only [List.append_assoc] at h
  have len4 : ∀ n : Nat, n ≤ 9999 → (padNat 4 n).length = 4 := fun n hn =>
    padNat_length (by norm_num) (by omega)
  have len2 : ∀ n : Nat, n ≤ 99 → (padNat 2 n).length = 2 := fun n hn =>
    padNat_length (by norm_num) (by omega)
  obtain ⟨ey, h⟩ := List.append_inj h (by rw [len4 _ hy₁', len4 _ hy₂'])
  obtain ⟨emo, h⟩ := List.append_inj h (by rw [len2 _ (by omega), len2 _ (by omega)])
  obtain ⟨ed, h⟩ := List.append_inj h (by rw [len2 _ (by omega), len2 _ (by omega)])
  obtain ⟨eh, h⟩ := List.append_inj h (by rw [len2 _ (by omega), len2 _ (by omega)])
  obtain ⟨emi, es⟩ := List.append_inj h (by rw [len2 _ (by omega), len2 _ (by omega)])
  cases t₁; cases t₂
  simp only [Timestamp.mk.injEq]
  exact ⟨padNat_injective ey, padNat_injective emo, padNat_injective ed,
    padNat_injective eh, padNat_injective emi, padNat_injective es⟩

theorem generate_txn_id_injective {t₁ t₂ : Timestamp}
    (h₁ : t₁.valid) (h₂ : t₂.valid)
    (h : generate_txn_id t₁ = generate_txn_id t₂) : t₁ = t₂ := by
  apply formatCompact_injective h₁ h₂
  have hdata : ("TXN-" ++ String.mk (formatCompact t₁)).data
      = ("TXN-" ++ String.mk (formatCompact t₂)).data := by
    rw [show ("TXN-" ++ String.mk (formatCompact t₁)) = generate_txn_id t₁ from rfl,
      show ("TXN-" ++ String.mk (formatCompact t₂)) = generate_txn_id t₂ from rfl, h]
  simp only [String.data_append] at hdata
  exact List.append_cancel_left hdata

/-! ## CSV serialization

`save_data` calls `df_.to_csv(DATA_FILE, index=False)` and `load_data` calls
`pd.read_csv(DATA_FILE)`.  The persisted form is a comma-separated file with
a header line; fields containing a separator, a quote or a line break are
quoted, and quotes inside a quoted field are doubled (minimal quoting, the
`pandas`/`csv` default).
-/

/-- A character that forces a CSV field to be quoted. -/
def isSpecialChar (c : Char) : Bool := c = ',' || c = '"' || c = '\n' || c = '\r'

/-- Double every quote of a field body. -/
def escQuotes : List Char → List Char
  | [] => []
  | c :: cs => if c = '"' then '"' :: '"' :: escQuotes cs else c :: escQuotes cs

/-- Render one CSV field with minimal quoting. -/
def csvEscape (f : List Char) : List Char :=
  if f.any isSpecialChar then '"' :: (escQuotes f ++ ['"']) else f

/-- Join chunks with a separator. -/
def joinWith (sep : List Char) : List (List Char) → List Char
  | [] => []
  | [f] => f
  | f :: g :: fs => f ++ sep ++ joinWith sep (g :: fs)

/-- Render one CSV record line. -/
def encodeFields (fs : List (List Char)) : List Char :=
  joinWith [','] (fs.map csvEscape)

/-- State of the CSV field scanner: outside quotes, inside quotes, or just
after a quote inside a quoted field. -/
inductive SplitState
  | normal
  | quoted
  | quoteEnd
deriving DecidableEq

/-- CSV field scanner: splits a record line at unquoted commas, undoing the
quoting of `csvEscape`. -/
def splitFieldsAux : SplitState → List Char → List Char → List (List Char)
  | _, acc, [] => [acc.reverse]
  | .normal, acc, c :: rest =>
      if c = ',' then acc.reverse :: splitFieldsAux .normal [] rest
      else if c = '"' then splitFieldsAux .quoted acc rest
      else splitFieldsAux .normal (c :: acc) rest
  | .quoted, acc, c :: rest =>
      if c = '"' then splitFieldsAux .quoteEnd acc rest
      else splitFieldsAux .quoted (c :: acc) rest
  | .quoteEnd, acc, c :: rest =>
      if c = '"' then splitFieldsAux .quoted ('"' :: acc) rest
      else if c = ',' then acc.reverse :: splitFieldsAux .normal [] rest
      else splitFieldsAux .normal (c :: acc) rest

/-- Split a CSV record line into its fields. -/
def splitFields (line : List Char) : List (List Char) :=
  splitFieldsAux .normal [] line

/-- Split a character list at every occurrence of `sep`. -/
def splitOnCharAux (sep : Char) : List Char → List Char → List (List Char)
  | acc, [] => [acc.reverse]
  | acc, c :: rest =>
      if c = sep then acc.reverse :: splitOnCharAux sep [] rest
      else splitOnCharAux sep (c :: acc) rest

/-- Split a character list at every occurrence of `sep`. -/
def splitOnChar (sep : Char) (cs : List Char) : List (List Char) :=
  splitOnCharAux sep [] cs

theorem splitFieldsAux_unquoted (f : List Char) (hf : f.any isSpecialChar = false) :
    ∀ (acc rest : List Char),
      splitFieldsAux .normal acc (f ++ rest) = splitFieldsAux .normal (f.reverse ++ acc) rest := by
  induction f with
  | nil => intro acc rest; simp
  | cons c cs ih =>
    intro acc rest
    simp only [List.any_cons, Bool.or_eq_false_iff] at hf
    obtain ⟨hc, hcs⟩ := hf
    simp only [isSpecialChar, Bool.or_eq_false_iff, decide_eq_false_iff_not] at hc
    rw [List.cons_append, splitFieldsAux, if_neg hc.1.1.1, if_neg hc.1.1.2, ih hcs]
    simp

theorem splitFieldsAux_quoted (f : List Char) :
    ∀ (acc rest : List Char),
      splitFieldsAux .quoted acc (escQuotes f ++ '"' :: rest)
        = splitFieldsAux .quoteEnd (f.reverse ++ acc) rest := by
  induction f with
  | nil =>
    intro acc rest
    rw [escQuotes, List.nil_append, splitFieldsAux, if_pos rfl]
    simp
  | cons c cs ih =>
    intro acc rest
    by_cases hc : c = '"'
    · subst hc
      rw [escQuotes, if_pos rfl, List.cons_append, List.cons_append, splitFieldsAux,
        if_pos rfl, splitFieldsAux, if_pos rfl, ih]
      simp
    · rw [escQuotes, if_neg hc, List.cons_append, splitFieldsAux, if_neg hc, ih]
      simp

theorem splitFields_csvEscape_comma (f rest : List Char) :
    splitFieldsAux .normal [] (csvEscape f ++ ',' :: rest)
      = f :: splitFieldsAux .normal [] rest := by
  rw [csvEscape]
  by_cases hf : f.any isSpecialChar
  · rw [if_pos hf, List.cons_append, splitFieldsAux, if_neg (by decide), if_pos rfl,
      List.append_assoc, List.singleton_append, splitFieldsAux_quoted,
      splitFieldsAux, if_neg (by decide), if_pos rfl]
    simp
  · rw [if_neg hf, splitFieldsAux_unquoted f (by simpa using hf), splitFieldsAux, if_pos rfl]
    simp

theorem splitFields_csvEscape_last (f : List Char) :
    splitFieldsAux .normal [] (csvEscape f) = [f] := by
  rw [csvEscape]
  by_cases hf : f.any isSpecialChar
  · rw [if_pos hf, splitFieldsAux, if_neg (by decide), if_pos rfl]
    have := splitFieldsAux_quoted f [] []
    rw [List.append_nil] at *
    rw [this, splitFieldsAux]
    simp
  · rw [if_neg hf]
    have := splitFieldsAux_unquoted f (by simpa using hf) [] []
    rw [List.append_nil] at this
    rw [this, splitFieldsAux]
    simp

theorem splitFields_encodeFields : ∀ fs : List (List Char), fs ≠ [] →
    splitFields (encodeFields fs) = fs := by
  intro fs
  induction fs with
  | nil => intro h; exact absurd rfl h
  | cons f fs ih =>
    intro _
    cases fs with
    | nil =>
      rw [encodeFields, List.map_cons, List.map_nil, joinWith, splitFields,
        splitFields_csvEscape_last]
    | cons g gs =>
      rw [encodeFields, List.map_cons, List.map_cons, joinWith, List.append_assoc,
        List.singleton_append, splitFields, splitFields_csvEscape_comma]
      have := ih (by simp)
      rw [splitFields, encodeFields, List.map_cons] at this
      rw [this]

theorem splitOnCharAux_no_sep {sep : Char} :
    ∀ (l : List Char), sep ∉ l → ∀ (acc rest : List Char),
      splitOnCharAux sep acc (l ++ rest) = splitOnCharAux sep (l.reverse ++ acc) rest := by
  intro l
  induction l with
  | nil => intro _ acc rest; simp
  | cons c cs ih =>
    intro hl acc rest
    have hc : c ≠ sep := fun h => hl (h ▸ List.mem_cons_self c cs)
    have hcs : sep ∉ cs := fun h => hl (List.mem_cons_of_mem c h)
    rw [List.cons_append, splitOnCharAux, if_neg hc, ih hcs]
    simp

theorem splitOnChar_joinWith {sep : Char} : ∀ (ls : List (List Char)), ls ≠ [] →
    (∀ l ∈ ls, sep ∉ l) → splitOnChar sep (joinWith [sep] ls) = ls := by
  intro ls
  induction ls with
  | nil => intro h; exact absurd rfl h
  | cons f fs ih =>
    intro _ hmem
    cases fs with
    | nil =>
      rw [joinWith, splitOnChar]
      have := splitOnCharAux_no_sep f (hmem f (List.mem_cons_self f [])) [] []
      rw [List.append_nil] at this
      rw [this, splitOnCharAux]
      simp
    | cons g gs =>
      rw [joinWith, List.append_assoc, List.singleton_append, splitOnChar,
        splitOnCharAux_no_sep f (hmem f (List.mem_cons_self f _)) [] (sep :: _),
        splitOnCharAux, if_pos rfl]
      have := ih (by simp) (fun l hl => hmem l (List.mem_cons_of_mem f hl))
      rw [splitOnChar] at this
      rw [this]
      simp

theorem mem_splitOnCharAux {sep : Char} :
    ∀ (cs acc : List Char), sep ∉ acc →
      ∀ l ∈ splitOnCharAux sep acc cs, sep ∉ l := by
  intro cs
  induction cs with
  | nil =>
    intro acc hacc l hl
    rw [splitOnCharAux] at hl
    simp only [List.mem_singleton] at hl
    subst hl
    simpa using hacc
  | cons c rest ih =>
    intro acc hacc l hl
    rw [splitOnCharAux] at hl
    by_cases hc : c = sep
    · rw [if_pos hc] at hl
      rcases List.mem_cons.mp hl with h | h
      · subst h; simpa using hacc
      · exact ih [] (by simp) l h
    · rw [if_neg hc] at hl
      refine ih (c :: acc) ?_ l hl
      intro h
      rcases List.mem_cons.mp h with h' | h'
      · exact hc h'.symm
      · exact hacc h'

theorem mem_splitOnChar {sep : Char} (cs : List Char) :
    ∀ l ∈ splitOnChar sep cs, sep ∉ l :=
  mem_splitOnCharAux cs [] (by simp)

theorem mem_splitFieldsAux :
    ∀ (cs : List Char) (st : SplitState) (acc fld : List Char),
      fld ∈ splitFieldsAux st acc cs → ∀ c ∈ fld, c ∈ cs ∨ c ∈ acc ∨ c = '"' := by
  intro cs
  induction cs with
  | nil =>
    intro st acc fld hfld c hc
    cases st <;>
      (rw [splitFieldsAux] at hfld; simp only [List.mem_singleton] at hfld; subst hfld;
       exact Or.inr (Or.inl (List.mem_reverse.mp hc)))
  | cons c0 rest ih =>
    intro st acc fld hfld c hc
    cases st with
    | normal =>
      rw [splitFieldsAux] at hfld
      by_cases h1 : c0 = ','
      · rw [if_pos h1] at hfld
        rcases List.mem_cons.mp hfld with h | h
        · subst h; exact Or.inr (Or.inl (List.mem_reverse.mp hc))
        · rcases ih .normal [] fld h c hc with h' | h' | h'
          · exact Or.inl (List.mem_cons_of_mem c0 h')
          · simp at h'
          · exact Or.inr (Or.inr h')
      · rw [if_neg h1] at hfld
        by_cases h2 : c0 = '"'
        · rw [if_pos h2] at hfld
          rcases ih .quoted acc fld hfld c hc with h' | h' | h'
          · exact Or.inl (List.mem_cons_of_mem c0 h')
          · exact Or.inr (Or.inl h')
          · exact Or.inr (Or.inr h')
        · rw [if_neg h2] at hfld
          rcases ih .normal (c0 :: acc) fld hfld c hc with h' | h' | h'
          · exact Or.inl (List.mem_cons_of_mem c0 h')
          · rcases List.mem_cons.mp h' with h'' | h''
            · exact Or.inl (h'' ▸ List.mem_cons_self c0 rest)
            · exact Or.inr (Or.inl h'')
          · exact Or.inr (Or.inr h')
    | quoted =>
      rw [splitFieldsAux] at hfld
      by_cases h1 : c0 = '"'
      · rw [if_pos h1] at hfld
        rcases ih .quoteEnd acc fld hfld c hc with h' | h' | h'
        · exact Or.inl (List.mem_cons_of_mem c0 h')
        · exact Or.inr (Or.inl h')
        · exact Or.inr (Or.inr h')
      · rw [if_neg h1] at hfld
        rcases ih .quoted (c0 :: acc) fld hfld c hc with h' | h' | h'
        · exact Or.inl (List.mem_cons_of_mem c0 h')
        · rcases List.mem_cons.mp h' with h'' | h''
          · exact Or.inl (h'' ▸ List.mem_cons_self c0 rest)
          · exact Or.inr (Or.inl h'')
        · exact Or.inr (Or.inr h')
    | quoteEnd =>
      rw [splitFieldsAux] at hfld
      by_cases h1 : c0 = '"'
      · rw [if_pos h1] at hfld
        rcases ih .quoted ('"' :: acc) fld hfld c hc with h' | h' | h'
        · exact Or.inl (List.mem_cons_of_mem c0 h')
        · rcases List.mem_cons.mp h' with h'' | h''
          · exact Or.inr (Or.inr h'')
          · exact Or.inr (Or.inl h'')
        · exact Or.inr (Or.inr h')
      · rw [if_neg h1] at hfld
        by_cases h2 : c0 = ','
        · rw [if_pos h2] at hfld
          rcases List.mem_cons.mp hfld with h | h
          · subst h; exact Or.inr (Or.inl (List.mem_reverse.mp hc))
          · rcases ih .normal [] fld h c hc with h' | h' | h'
            · exact Or.inl (List.mem_cons_of_mem c0 h')
            · simp at h'
            · exact Or.inr (Or.inr h')
        · rw [if_neg h2] at hfld
          rcases ih .normal (c0 :: acc) fld hfld c hc with h' | h' | h'
          · exact Or.inl (List.mem_cons_of_mem c0 h')
          · rcases List.mem_cons.mp h' with h'' | h''
            · exact Or.inl (h'' ▸ List.mem_cons_self c0 rest)
            · exact Or.inr (Or.inl h'')
          · exact Or.inr (Or.inr h')

theorem mem_splitFields {line fld : List Char} (hfld : fld ∈ splitFields line)
    {c : Char} (hc : c ∈ fld) : c ∈ line ∨ c = '"' := by
  rcases mem_splitFieldsAux line .normal [] fld hfld c hc with h | h | h
  · exact Or.inl h
  · simp at h
  · exact Or.inr h

theorem mem_escQuotes : ∀ {f : List Char} {c : Char}, c ∈ escQuotes f → c ∈ f ∨ c = '"' := by
  intro f
  induction f with
  | nil => intro c hc; simp [escQuotes] at hc
  | cons a as ih =>
    intro c hc
    rw [escQuotes] at hc
    by_cases ha : a = '"'
    · rw [if_pos ha] at hc
      rcases List.mem_cons.mp hc with h | h
      · exact Or.inr h
      · rcases List.mem_cons.mp h with h' | h'
        · exact Or.inr h'
        · rcases ih h' with h'' | h''
          · exact Or.inl (List.mem_cons_of_mem a h'')
          · exact Or.inr h''
    · rw [if_neg ha] at hc
      rcases List.mem_cons.mp hc with h | h
      · exact Or.inl (h ▸ List.mem_cons_self a as)
      · rcases ih h with h'' | h''
        · exact Or.inl (List.mem_cons_of_mem a h'')
        · exact Or.inr h''

theorem mem_csvEscape {f : List Char} {c : Char} (hc : c ∈ csvEscape f) :
    c ∈ f ∨ c = '"' := by
  rw [csvEscape] at hc
  by_cases hf : f.any isSpecialChar
  · rw [if_pos hf] at hc
    rcases List.mem_cons.mp hc with h | h
    · exact Or.inr h
    · rcases List.mem_append.mp h with h' | h'
      · exact mem_escQuotes h'
      · exact Or.inr (List.mem_singleton.mp h')
  · rw [if_neg hf] at hc
    exact Or.inl hc

theorem mem_joinWith {sep : List Char} :
    ∀ {ls : List (List Char)} {c : Char}, c ∈ joinWith sep ls →
      (∃ l ∈ ls, c ∈ l) ∨ c ∈ sep := by
  intro ls
  induction ls with
  | nil => intro c hc; simp [joinWith] at hc
  | cons f fs ih =>
    intro c hc
    cases fs with
    | nil =>
      rw [joinWith] at hc
      exact Or.inl ⟨f, List.mem_cons_self f [], hc⟩
    | cons g gs =>
      rw [joinWith] at hc
      rcases List.mem_append.mp hc with h | h
      · rcases List.mem_append.mp h with h' | h'
        · exact Or.inl ⟨f, List.mem_cons_self f _, h'⟩
        · exact Or.inr h'
      · rcases ih h with ⟨l, hl, hcl⟩ | h'
        · exact Or.inl ⟨l, List.mem_cons_of_mem f hl, hcl⟩
        · exact Or.inr h'

/-! ## The ledger data model

One row of `stock_records.csv`, with the ten columns the application
writes (src/app.py lines 57-60 and 137-148).
-/

/-- One ledger record. -/
structure Row where
  Date : String
  Transaction_ID : String
  Action : String
  Meter_Type : String
  Meter_Quantity : Nat
  CIU_Quantity : Nat
  Stock_Issued_To : String
  Photo_Path : String
  Status : String
  Notes : String
deriving DecidableEq, Repr

/-- The fixed column schema (src/app.py lines 57-60). -/
def expectedColumns : List String :=
  ["Date", "Transaction_ID", "Action", "Meter_Type", "Meter_Quantity",
   "CIU_Quantity", "Stock_Issued_To", "Photo_Path", "Status", "Notes"]

/-- The CSV fields of a row, in schema order. -/
def Row.toFields (r : Row) : List (List Char) :=
  [r.Date.data, r.Transaction_ID.data, r.Action.data, r.Meter_Type.data,
   natToChars r.Meter_Quantity, natToChars r.CIU_Quantity,
   r.Stock_Issued_To.data, r.Photo_Path.data, r.Status.data, r.Notes.data]

/-- Render one CSV record line. -/
def encodeRow (r : Row) : List Char := encodeFields r.toFields

/-- The header line of the persisted file. -/
def headerLine : List Char := encodeFields (expectedColumns.map String.data)

/-- Parse one CSV record line into a row: exactly ten fields, with integer
quantity columns (otherwise the file does not match the schema and the
typed ledger cannot represent it).  This is the text-level view, which
takes every field back verbatim as a string; the NA conversion that
`pd.read_csv` applies to empty fields (an empty field materialises as NaN,
not as the empty string) is modelled separately by `parseRowNA` below. -/
def parseRow (line : List Char) : Option Row :=
  match splitFields line with
  | [d, tid, act, mt, mq, ciu, sit, pp, st, nt] =>
    match charsToNat? mq, charsToNat? ciu with
    | some m, some c =>
      some { Date := String.mk d, Transaction_ID := String.mk tid,
             Action := String.mk act, Meter_Type := String.mk mt,
             Meter_Quantity := m, CIU_Quantity := c,
             Stock_Issued_To := String.mk sit, Photo_Path := String.mk pp,
             Status := String.mk st, Notes := String.mk nt }
    | _, _ => none
  | _ => none

/-- An in-memory table: schema plus rows, the shape `load_data` returns. -/
structure DataFrame where
  columns : List String
  rows : List Row
deriving DecidableEq, Repr

/-- `save_data` (src/app.py lines 67-69): serialize the full table,
header line first, overwriting the persisted file. -/
def save_data (df : DataFrame) : List Char :=
  joinWith ['\n'] (encodeFields (df.columns.map String.data) :: df.rows.map encodeRow)

/-- Parse the whole persisted file: a header line matching the fixed
schema, then one CSV record line per row. -/
def parseFile (cs : List Char) : Option (List Row) :=
  let lines := splitOnChar '\n' cs
  if lines.head? = some headerLine then lines.tail.mapM parseRow else none

/-- `load_data` (src/app.py lines 50-65): if the file is missing, or its
contents cannot be read back as the fixed schema, return an empty table
with the expected columns.  Text-level view built on `parseRow`; the
NA-aware reload (empty fields as NaN) is `load_dataNA` below. -/
def load_data (file : Option (List Char)) : DataFrame :=
  match file with
  | none => ⟨expectedColumns, []⟩
  | some cs =>
    match parseFile cs with
    | some rows => ⟨expectedColumns, rows⟩
    | none => ⟨expectedColumns, []⟩

/-- A string that fits in one CSV line. -/
def noNewline (s : String) : Prop := '\n' ∉ s.data

instance (s : String) : Decidable (noNewline s) := by
  unfold noNewline; infer_instance

/-- A row whose text fields fit in one CSV line (`st.text_input` values
contain no line break; `st.text_area` notes may, which is exactly the case
the flat line-per-record file cannot round-trip). -/
def Row.wellFormed (r : Row) : Prop :=
  noNewline r.Date ∧ noNewline r.Transaction_ID ∧ noNewline r.Action ∧
  noNewline r.Meter_Type ∧ noNewline r.Stock_Issued_To ∧ noNewline r.Photo_Path ∧
  noNewline r.Status ∧ noNewline r.Notes

instance (r : Row) : Decidable r.wellFormed := by
  unfold Row.wellFormed; infer_instance

/-- A well-formed table: the fixed schema, and rows that fit in CSV lines. -/
def DataFrame.wellFormed (df : DataFrame) : Prop :=
  df.columns = expectedColumns ∧ ∀ r ∈ df.rows, r.wellFormed

theorem parseRow_encodeRow (r : Row) : parseRow (encodeRow r) = some r := by
  rw [parseRow, encodeRow, splitFields_encodeFields r.toFields (by simp [Row.toFields])]
  rw [Row.toFields]
  simp only [charsToNat_natToChars]

theorem natToChars_no_newline {n : Nat} : '\n' ∉ natToChars n := by
  intro h
  have := mem_natToChars_isDigit h
  simp [Char.isDigit] at this

theorem encodeRow_no_newline {r : Row} (hr : r.wellFormed) : '\n' ∉ encodeRow r := by
  intro h
  obtain ⟨h1, h2, h3, h4, h5, h6, h7, h8⟩ := hr
  rcases mem_joinWith h with ⟨l, hl, hcl⟩ | hsep
  · simp only [Row.toFields, List.map_cons, List.map_nil, List.mem_cons,
      List.not_mem_nil, or_false] at hl
    rcases hl with rfl | rfl | rfl | rfl | rfl | rfl | rfl | rfl | rfl | rfl <;>
      rcases mem_csvEscape hcl with h' | h' <;>
        first
          | exact h1 h' | exact h2 h' | exact h3 h' | exact h4 h'
          | exact h5 h' | exact h6 h' | exact h7 h' | exact h8 h'
          | exact natToChars_no_newline h' | simp at h'
  · simp at hsep

theorem headerLine_no_newline : '\n' ∉ headerLine := by decide

theorem mapM_parseRow_encodeRow : ∀ rows : List Row,
    (rows.map encodeRow).mapM parseRow = some rows := by
  intro rows
  induction rows with
  | nil => rfl
  | cons r rs ih =>
    rw [List.map_cons, List.mapM_cons, parseRow_encodeRow, ih]
    rfl

theorem parseFile_save_data {df : DataFrame} (h : df.wellFormed) :
    parseFile (save_data df) = some df.rows := by
  obtain ⟨hcols, hrows⟩ := h
  have hsp : splitOnChar '\n' (save_data df)
      = headerLine :: df.rows.map encodeRow := by
    rw [save_data, hcols]
    refine splitOnChar_joinWith _ (by simp) ?_
    intro l hl
    rcases List.mem_cons.mp hl with rfl | hl'
    · exact headerLine_no_newline
    · obtain ⟨r, hr, rfl⟩ := List.mem_map.mp hl'
      exact encodeRow_no_newline (hrows r hr)
  rw [parseFile]
  simp only [hsp, List.head?_cons, List.tail_cons, if_pos rfl]
  exact mapM_parseRow_encodeRow df.rows

theorem load_data_save_data {df : DataFrame} (h : df.wellFormed) :
    load_data (some (save_data df)) = df := by
  have := parseFile_save_data h
  simp only [load_data, this]
  cases df with
  | mk columns rows =>
    obtain ⟨hcols, _⟩ := h
    simp_all

theorem mapM_parseRow_mem {lines : List (List Char)} {rows : List Row}
    (h : lines.mapM parseRow = some rows) :
    ∀ r ∈ rows, ∃ l ∈ lines, parseRow l = some r := by
  induction lines generalizing rows with
  | nil =>
    simp only [List.mapM_nil, Option.pure_def, Option.some.injEq] at h
    subst h
    intro r hr
    simp at hr
  | cons l ls ih =>
    rw [List.mapM_cons] at h
    cases hpl : parseRow l with
    | none => rw [hpl] at h; simp at h
    | some r0 =>
      rw [hpl] at h
      cases hpls : ls.mapM parseRow with
      | none => rw [hpls] at h; simp at h
      | some rs0 =>
        rw [hpls] at h
        simp only [Option.pure_def, Option.bind_eq_bind, Option.some_bind,
          Option.some.injEq] at h
        subst h
        intro r hr
        rcases List.mem_cons.mp hr with rfl | hr'
        · exact ⟨l, List.mem_cons_self l ls, hpl⟩
        · obtain ⟨l', hl', hpl'⟩ := ih hpls r hr'
          exact ⟨l', List.mem_cons_of_mem l hl', hpl'⟩

theorem parseRow_wellFormed {line : List Char} {r : Row}
    (hline : '\n' ∉ line) (h : parseRow line = some r) : r.wellFormed := by
  have hfld : ∀ fld ∈ splitFields line, '\n' ∉ fld := by
    intro fld hf hmem
    rcases mem_splitFields hf hmem with h' | h'
    · exact hline h'
    · simp at h'
  rw [parseRow] at h
  split at h
  case _ =>
    rename_i d tid act mt mq ciu sit pp st nt heq
    split at h
    case _ =>
      rename_i m c hmq hciu
      injection h with h
      subst h
      have hmem : ∀ x ∈ [d, tid, act, mt, mq, ciu, sit, pp, st, nt], '\n' ∉ x := by
        rw [← heq]; exact hfld
      exact ⟨fun hx => hmem d (by simp) hx, fun hx => hmem tid (by simp) hx,
        fun hx => hmem act (by simp) hx, fun hx => hmem mt (by simp) hx,
        fun hx => hmem sit (by simp) hx, fun hx => hmem pp (by simp) hx,
        fun hx => hmem st (by simp) hx, fun hx => hmem nt (by simp) hx⟩
    case _ => exact absurd h (by simp)
  case _ => exact absurd h (by simp)

theorem parseFile_wellFormed {cs : List Char} {rows : List Row}
    (h : parseFile cs = some rows) : ∀ r ∈ rows, r.wellFormed := by
  rw [parseFile] at h
  cases hsp : splitOnChar '\n' cs with
  | nil => rw [hsp] at h; simp at h
  | cons header rest =>
    rw [hsp] at h
    simp only [List.head?_cons, List.tail_cons, Option.some.injEq] at h
    by_cases hh : header = headerLine
    · rw [if_pos hh] at h
      intro r hr
      obtain ⟨l, hl, hpl⟩ := mapM_parseRow_mem h r hr
      have hnl : '\n' ∉ l := by
        have hall : ∀ x ∈ splitOnChar '\n' cs, '\n' ∉ x := mem_splitOnChar cs
        rw [hsp] at hall
        exact hall l (List.mem_cons_of_mem header hl)
      exact parseRow_wellFormed hnl hpl
    · rw [if_neg hh] at h
      simp at h

theorem load_data_columns (file : Option (List Char)) :
    (load_data file).columns = expectedColumns := by
  cases file with
  | none => rfl
  | some cs =>
    rw [load_data]
    cases parseFile cs <;> rfl

theorem load_data_wellFormed (file : Option (List Char)) :
    (load_data file).wellFormed := by
  cases file with
  | none => exact ⟨rfl, by simp [load_data]⟩
  | some cs =>
    rw [load_data]
    cases hp : parseFile cs with
    | none => exact ⟨rfl, by simp⟩
    | some rows => exact ⟨rfl, parseFile_wellFormed hp⟩

/-! ## The NA-aware view of reloading

`pd.read_csv` does not hand empty text fields back as empty strings: an
empty CSV field materialises as NaN.  The source knows this — the photo
viewer guards `Photo_Path` with `pd.isna` (src/app.py line 201) precisely
because an empty path comes back as NaN after a reload.  The definitions
below refine the text-level `parseRow`/`load_data` with that conversion,
so a reloaded table is compared in the value domain the program really
sees. -/

/-- Modelled from pandas `read_csv` NA handling (evidenced by the `pd.isna`
guard at src/app.py line 201): a text cell of a reloaded table — NaN for an
empty CSV field, a string otherwise. -/
inductive CsvCell
  | na
  | str (s : String)
deriving DecidableEq, Repr

/-- Modelled from pandas `read_csv` NA handling: how one CSV field is
materialised in a text column. -/
def readCell (f : List Char) : CsvCell :=
  if f = [] then CsvCell.na else CsvCell.str (String.mk f)

/-- One reloaded ledger record, NA conversion included. -/
structure RowNA where
  Date : CsvCell
  Transaction_ID : CsvCell
  Action : CsvCell
  Meter_Type : CsvCell
  Meter_Quantity : Nat
  CIU_Quantity : Nat
  Stock_Issued_To : CsvCell
  Photo_Path : CsvCell
  Status : CsvCell
  Notes : CsvCell
deriving DecidableEq, Repr

/-- Parse one CSV record line the way `read_csv` materialises it:
ten fields, integer quantity columns, empty text fields as NaN. -/
def parseRowNA (line : List Char) : Option RowNA :=
  match splitFields line with
  | [d, tid, act, mt, mq, ciu, sit, pp, st, nt] =>
    match charsToNat? mq, charsToNat? ciu with
    | some m, some c =>
      some { Date := readCell d, Transaction_ID := readCell tid,
             Action := readCell act, Meter_Type := readCell mt,
             Meter_Quantity := m, CIU_Quantity := c,
             Stock_Issued_To := readCell sit, Photo_Path := readCell pp,
             Status := readCell st, Notes := readCell nt }
    | _, _ => none
  | _ => none

/-- A reloaded table, NA conversion included. -/
structure DataFrameNA where
  columns : List String
  rows : List RowNA
deriving DecidableEq, Repr

/-- Parse the whole persisted file the way `read_csv` materialises it. -/
def parseFileNA (cs : List Char) : Option (List RowNA) :=
  let lines := splitOnChar '\n' cs
  if lines.head? = some headerLine then lines.tail.mapM parseRowNA else none

/-- `load_data` with the NA conversion of `pd.read_csv` included. -/
def load_dataNA (file : Option (List Char)) : DataFrameNA :=
  match file with
  | none => ⟨expectedColumns, []⟩
  | some cs =>
    match parseFileNA cs with
    | some rows => ⟨expectedColumns, rows⟩
    | none => ⟨expectedColumns, []⟩

/-- An in-memory row seen in the reloaded value domain: every text field is
an actual string (the in-memory table never holds NaN — all its cells come
from form inputs or string literals). -/
def RowNA.ofRow (r : Row) : RowNA :=
  { Date := CsvCell.str r.Date, Transaction_ID := CsvCell.str r.Transaction_ID,
    Action := CsvCell.str r.Action, Meter_Type := CsvCell.str r.Meter_Type,
    Meter_Quantity := r.Meter_Quantity, CIU_Quantity := r.CIU_Quantity,
    Stock_Issued_To := CsvCell.str r.Stock_Issued_To,
    Photo_Path := CsvCell.str r.Photo_Path,
    Status := CsvCell.str r.Status, Notes := CsvCell.str r.Notes }

/-- An in-memory table seen in the reloaded value domain. -/
def DataFrameNA.ofFrame (df : DataFrame) : DataFrameNA :=
  ⟨df.columns, df.rows.map RowNA.ofRow⟩

/-- Text fields that survive the NA conversion of a save/reload. -/
def Row.fieldsNonEmpty (r : Row) : Prop :=
  r.Date ≠ "" ∧ r.Transaction_ID ≠ "" ∧ r.Action ≠ "" ∧ r.Meter_Type ≠ "" ∧
  r.Stock_Issued_To ≠ "" ∧ r.Photo_Path ≠ "" ∧ r.Status ≠ "" ∧ r.Notes ≠ ""

instance (r : Row) : Decidable r.fieldsNonEmpty := by
  unfold Row.fieldsNonEmpty; infer_instance

theorem eq_empty_of_data_eq_nil {s : String} (h : s.data = []) : s = "" := by
  cases s with
  | mk data =>
    have hd : data = [] := h
    rw [hd]

theorem readCell_data {s : String} (h : s ≠ "") : readCell s.data = CsvCell.str s := by
  rw [readCell, if_neg]
  intro hd
  exact h (eq_empty_of_data_eq_nil hd)

theorem parseRowNA_encodeRow (r : Row) (hne : r.fieldsNonEmpty) :
    parseRowNA (encodeRow r) = some (RowNA.ofRow r) := by
  obtain ⟨h1, h2, h3, h4, h5, h6, h7, h8⟩ := hne
  rw [parseRowNA, encodeRow, splitFields_encodeFields r.toFields (by simp [Row.toFields]),
    Row.toFields]
  simp only [charsToNat_natToChars, readCell_data h1, readCell_data h2, readCell_data h3,
    readCell_data h4, readCell_data h5, readCell_data h6, readCell_data h7, readCell_data h8]
  rfl

theorem mapM_parseRowNA_encodeRow : ∀ rows : List Row, (∀ r ∈ rows, r.fieldsNonEmpty) →
    (rows.map encodeRow).mapM parseRowNA = some (rows.map RowNA.ofRow) := by
  intro rows
  induction rows with
  | nil => intro _; rfl
  | cons r rs ih =>
    intro h
    rw [List.map_cons, List.mapM_cons, parseRowNA_encodeRow r (h r (by simp)),
      ih (fun x hx => h x (List.mem_cons_of_mem r hx)), List.map_cons]
    rfl

theorem save_data_splitOnChar {df : DataFrame} (h : df.wellFormed) :
    splitOnChar '\n' (save_data df) = headerLine :: df.rows.map encodeRow := by
  obtain ⟨hcols, hrows⟩ := h
  rw [save_data, hcols]
  refine splitOnChar_joinWith _ (by simp) ?_
  intro l hl
  rcases List.mem_cons.mp hl with rfl | hl'
  · exact headerLine_no_newline
  · obtain ⟨r, hr, rfl⟩ := List.mem_map.mp hl'
    exact encodeRow_no_newline (hrows r hr)

theorem parseFileNA_save_data {df : DataFrame} (h : df.wellFormed)
    (hne : ∀ r ∈ df.rows, r.fieldsNonEmpty) :
    parseFileNA (save_data df) = some (df.rows.map RowNA.ofRow) := by
  rw [parseFileNA]
  simp only [save_data_splitOnChar h, List.head?_cons, List.tail_cons, if_pos rfl]
  exact mapM_parseRowNA_encodeRow df.rows hne

/-! ## Application state and the role handlers

The app works against two pieces of disk state: the ledger file
`data/stock_records.csv` and the flat photo directory `photos/`.  Each
handler reloads the ledger (`load_data`), acts on it, and — for mutations —
persists the full table (`save_data`) before returning.
-/

/-- An uploaded photo: original filename plus its bytes. -/
structure Photo where
  name : String
  content : String
deriving DecidableEq, Repr

/-- The installer form inputs (src/app.py lines 94-115). -/
structure SubmitForm where
  meter_type : List String
  meter_qty : Nat
  ciu_qty : Nat
  stock_issued_to : String
  notes : String
  uploaded_photos : List Photo
deriving DecidableEq, Repr

/-- The visible outcome of a submission: a `st.warning` rejection or a
`st.success` acknowledgement carrying the new transaction id. -/
inductive SubmitOutcome
  | warning (msg : String)
  | success (txn_id : String)
deriving DecidableEq, Repr

/-- Whether the submission was rejected by validation. -/
def SubmitOutcome.isWarning : SubmitOutcome → Bool
  | .warning _ => true
  | .success _ => false

/-- The disk state the app reads and writes. -/
structure AppState where
  dataFile : Option (List Char)
  photoFiles : List (String × String)
deriving DecidableEq, Repr

/-- `open(dest, "wb")` semantics: overwrite the file of that name. -/
def writeStoredFile (store : List (String × String)) (name content : String) :
    List (String × String) :=
  store.filter (fun e => e.1 != name) ++ [(name, content)]

/-- `str(PHOTOS_DIR / safe_name)` for `safe_name = f"{txn_id}_{f.name}"`. -/
def photoDest (txn_id : String) (p : Photo) : String :=
  "photos/" ++ (txn_id ++ "_" ++ p.name)

/-- The `entry` dict built on a successful submission
(src/app.py lines 137-148). -/
def submission_entry (form : SubmitForm) (txn_id : String) (now : Timestamp) : Row :=
  { Date := String.mk (formatDate now),
    Transaction_ID := txn_id,
    Action := "Stock Out",
    Meter_Type := String.intercalate ", " form.meter_type,
    Meter_Quantity := form.meter_qty,
    CIU_Quantity := form.ciu_qty,
    Stock_Issued_To := form.stock_issued_to,
    Photo_Path := String.intercalate "|" (form.uploaded_photos.map (photoDest txn_id)),
    Status := "Pending Approval",
    Notes := form.notes }

/-- The `Submit Stock Out` button handler (src/app.py lines 117-152):
validate, save photos, append the entry, persist the ledger. -/
def installer_submit (st : AppState) (form : SubmitForm) (now : Timestamp) :
    AppState × SubmitOutcome :=
  if form.meter_type = [] then
    (st, .warning "Please select at least one Meter Type.")
  else if form.stock_issued_to = "" then
    (st, .warning "Please enter who stock was issued to.")
  else
    let df := load_data st.dataFile
    let txn_id := generate_txn_id now
    let photoStore := form.uploaded_photos.foldl
      (fun s p => writeStoredFile s (txn_id ++ "_" ++ p.name) p.content) st.photoFiles
    let entry := submission_entry form txn_id now
    ({ dataFile := some (save_data ⟨df.columns, df.rows ++ [entry]⟩),
       photoFiles := photoStore }, .success txn_id)

/-- The status assignment
`df.loc[df["Transaction_ID"] == selected_txn, "Status"] = newStatus`
(src/app.py lines 186 and 191): every row whose id matches gets the new
status; nothing else changes. -/
def set_status (rows : List Row) (txn newStatus : String) : List Row :=
  rows.map (fun r => if r.Transaction_ID = txn then { r with Status := newStatus } else r)

/-- The Approve/Reject button handler (src/app.py lines 185-193): reload,
assign the status, persist the full ledger. -/
def admin_set_status (st : AppState) (txn newStatus : String) : AppState :=
  let df := load_data st.dataFile
  { st with dataFile := some (save_data ⟨df.columns, set_status df.rows txn newStatus⟩) }

/-- Rows in `Date`-descending order (the `Date` strings are
`%Y-%m-%d %H:%M:%S`, so lexicographic order is chronological order). -/
def dateDesc (a b : Row) : Prop := b.Date ≤ a.Date

instance : DecidableRel dateDesc := fun a b => inferInstanceAs (Decidable (b.Date ≤ a.Date))

instance : IsTotal Row dateDesc := ⟨fun a b => le_total b.Date a.Date⟩

instance : IsTrans Row dateDesc := ⟨fun _ _ _ h1 h2 => le_trans h2 h1⟩

/-- The admin dashboard filter (src/app.py lines 165-171): keep the rows
matching the selected status ("All" keeps everything), then sort by `Date`
descending. -/
def filter_by_status (rows : List Row) (status_filter : String) : List Row :=
  let display := if status_filter = "All" then rows
                 else rows.filter (fun r => decide (r.Status = status_filter))
  List.insertionSort dateDesc display

/-- The group key of the manager summary. -/
def rowKey (r : Row) : String × String := (r.Meter_Type, r.Status)

/-- Sum of `Meter_Quantity` over the rows with the given (type, status) key. -/
def fiberMeterSum (rows : List Row) (k : String × String) : Nat :=
  ((rows.filter (fun r => decide (rowKey r = k))).map Row.Meter_Quantity).sum

/-- Sum of `CIU_Quantity` over the rows with the given (type, status) key. -/
def fiberCiuSum (rows : List Row) (k : String × String) : Nat :=
  ((rows.filter (fun r => decide (rowKey r = k))).map Row.CIU_Quantity).sum

/-- The manager summary
`df.groupby(["Meter_Type", "Status"], as_index=False)[["Meter_Quantity", "CIU_Quantity"]].sum()`
(src/app.py line 225): one group per distinct (type, status) key, with the
quantity sums of that group. -/
def summarize (rows : List Row) : List ((String × String) × Nat × Nat) :=
  ((rows.map rowKey).dedup).map (fun k => (k, fiberMeterSum rows k, fiberCiuSum rows k))

/-! ## Supporting lemmas for the claims -/

theorem sum_map_filter_split {α : Type} (f : α → Nat) (p : α → Bool) (l : List α) :
    ((l.filter p).map f).sum + ((l.filter (fun x => !p x)).map f).sum = (l.map f).sum := by
  induction l with
  | nil => rfl
  | cons a as ih =>
    cases hpa : p a with
    | false =>
      simp [List.filter_cons, hpa]
      omega
    | true =>
      simp [List.filter_cons, hpa]
      omega

theorem sum_map_fiber_partition {α κ : Type} [DecidableEq κ] (key : α → κ) (f : α → Nat) :
    ∀ (ks : List κ) (l : List α), ks.Nodup → (∀ x ∈ l, key x ∈ ks) →
      (ks.map (fun k => ((l.filter (fun x => decide (key x = k))).map f).sum)).sum
        = (l.map f).sum := by
  intro ks
  induction ks with
  | nil =>
    intro l _ hcov
    have hl : l = [] := by
      cases l with
      | nil => rfl
      | cons a as => exact absurd (hcov a (by simp)) (by simp)
    subst hl; rfl
  | cons k ks ih =>
    intro l hnd hcov
    obtain ⟨hk, hnd'⟩ := List.nodup_cons.mp hnd
    rw [List.map_cons, List.sum_cons]
    have hrest : ∀ k' ∈ ks,
        l.filter (fun x => decide (key x = k'))
          = (l.filter (fun x => !decide (key x = k))).filter
              (fun x => decide (key x = k')) := by
      intro k' hk'
      rw [List.filter_filter]
      refine List.filter_congr ?_
      intro x _
      by_cases hx : key x = k'
      · have h1 : decide (key x = k') = true := by simp [hx]
        have h2 : decide (key x = k) = false :=
          decide_eq_false fun h => hk (by rw [← h, hx]; exact hk')
        rw [h1, h2]
        rfl
      · have h1 : decide (key x = k') = false := decide_eq_false hx
        rw [h1]
        simp
    have hmap : ks.map (fun k' => ((l.filter (fun x => decide (key x = k'))).map f).sum)
        = ks.map (fun k' => (((l.filter (fun x => !decide (key x = k))).filter
            (fun x => decide (key x = k'))).map f).sum) :=
      List.map_congr_left fun k' hk' => by rw [hrest k' hk']
    rw [hmap, ih (l.filter (fun x => !decide (key x = k))) hnd' ?_]
    · exact sum_map_filter_split f (fun x => decide (key x = k)) l
    · intro x hx
      obtain ⟨hxl, hxk⟩ := List.mem_filter.mp hx
      rcases List.mem_cons.mp (hcov x hxl) with h | h
      · simp only [Bool.not_eq_true', decide_eq_false_iff_not] at hxk
        exact absurd h hxk
      · exact h

theorem set_status_set_status (rows : List Row) (txn s : String) :
    set_status (set_status rows txn s) txn s = set_status rows txn s := by
  simp only [set_status, List.map_map]
  refine List.map_congr_left fun r _ => ?_
  by_cases h : r.Transaction_ID = txn
  · simp [Function.comp, h]
  · simp [Function.comp, h]

theorem set_status_wellFormed {rows : List Row} (h : ∀ r ∈ rows, r.wellFormed)
    {txn s : String} (hs : noNewline s) :
    ∀ r ∈ set_status rows txn s, r.wellFormed := by
  intro r hr
  rw [set_status] at hr
  obtain ⟨r0, hr0, rfl⟩ := List.mem_map.mp hr
  by_cases hid : r0.Transaction_ID = txn
  · rw [if_pos hid]
    obtain ⟨h1, h2, h3, h4, h5, h6, _, h8⟩ := h r0 hr0
    exact ⟨h1, h2, h3, h4, h5, h6, hs, h8⟩
  · rw [if_neg hid]
    exact h r0 hr0

theorem admin_set_status_idem (st : AppState) {txn s : String} (hs : noNewline s) :
    admin_set_status (admin_set_status st txn s) txn s = admin_set_status st txn s := by
  have hcols := load_data_columns st.dataFile
  have hwf := load_data_wellFormed st.dataFile
  have hwf1 : DataFrame.wellFormed
      ⟨(load_data st.dataFile).columns,
        set_status (load_data st.dataFile).rows txn s⟩ :=
    ⟨hcols, set_status_wellFormed hwf.2 hs⟩
  simp only [admin_set_status]
  rw [load_data_save_data hwf1]
  rw [set_status_set_status]

/-! ## Concrete fixtures used by witnesses and counterexamples -/

/-- A pending ledger record (its meter type contains a comma, so the CSV
round trip exercises the quoting path). -/
def demoRow : Row :=
  { Date := "2024-01-05 10:20:30",
    Transaction_ID := "TXN-20240105102030",
    Action := "Stock Out",
    Meter_Type := "DN15, blue",
    Meter_Quantity := 5,
    CIU_Quantity := 2,
    Stock_Issued_To := "Team A",
    Photo_Path := "photos/TXN-20240105102030_a.jpg",
    Status := "Pending Approval",
    Notes := "" }

/-- An approved ledger record. -/
def demoRow2 : Row :=
  { Date := "2024-01-06 11:00:00",
    Transaction_ID := "TXN-20240106110000",
    Action := "Stock Out",
    Meter_Type := "CIU",
    Meter_Quantity := 0,
    CIU_Quantity := 3,
    Stock_Issued_To := "Team B",
    Photo_Path := "",
    Status := "Approved",
    Notes := "urgent" }

/-- A two-row well-formed table. -/
def demoRows : List Row := [demoRow, demoRow2]

/-- A two-row well-formed table with the fixed schema.  Its rows carry
empty text cells (`demoRow.Notes = ""`, `demoRow2.Photo_Path = ""`), which
`pd.read_csv` materialises as NaN. -/
def demoFrame : DataFrame := ⟨expectedColumns, demoRows⟩

/-- The same table with every text field non-empty. -/
def demoFrameFull : DataFrame :=
  ⟨expectedColumns,
   [{ demoRow with Notes := "checked" },
    { demoRow2 with Photo_Path := "photos/TXN-20240106110000_c.jpg" }]⟩

/-- Fresh install: no ledger file, no photos. -/
def demoState0 : AppState := ⟨none, []⟩

/-- Disk state holding a one-row ledger. -/
def demoState1 : AppState := ⟨some (save_data ⟨expectedColumns, [demoRow]⟩), []⟩

/-- A wall-clock second. -/
def demoTime : Timestamp := ⟨2024, 1, 5, 10, 20, 30⟩

/-- The following wall-clock second. -/
def demoTime2 : Timestamp := ⟨2024, 1, 5, 10, 20, 31⟩

/-- A valid installer submission. -/
def demoForm : SubmitForm :=
  { meter_type := ["DN15, blue"], meter_qty := 5, ciu_qty := 2,
    stock_issued_to := "Team A", notes := "", uploaded_photos := [⟨"a.jpg", "IMG"⟩] }

/-- The same submission with a whitespace-only issued-to field. -/
def blankForm : SubmitForm := { demoForm with stock_issued_to := " " }

/-- The same submission with no meter type selected. -/
def emptyForm : SubmitForm := { demoForm with meter_type := [] }

instance (df : DataFrame) : Decidable df.wellFormed := by
  unfold DataFrame.wellFormed; infer_instance

/-! ## The claims -/

/-- C1: a successful `createTransaction` (non-empty meter types, non-empty
issued-to) appends exactly one record to the ledger with status
"Pending Approval", identifier `"TXN-" + now` at second precision, fields
equal to the submitted inputs, and persists the ledger after the append. -/
theorem C1_createTransaction_appends (st : AppState) (form : SubmitForm) (now : Timestamp)
    (h1 : form.meter_type ≠ []) (h2 : form.stock_issued_to ≠ "") :
    ∃ entry : Row,
      (installer_submit st form now).1.dataFile
          = some (save_data ⟨expectedColumns, (load_data st.dataFile).rows ++ [entry]⟩)
      ∧ (installer_submit st form now).2 = SubmitOutcome.success (generate_txn_id now)
      ∧ entry.Status = "Pending Approval"
      ∧ entry.Transaction_ID = generate_txn_id now
      ∧ generate_txn_id now = "TXN-" ++ String.mk (formatCompact now)
      ∧ entry.Date = String.mk (formatDate now)
      ∧ entry.Action = "Stock Out"
      ∧ entry.Meter_Type = String.intercalate ", " form.meter_type
      ∧ entry.Meter_Quantity = form.meter_qty
      ∧ entry.CIU_Quantity = form.ciu_qty
      ∧ entry.Stock_Issued_To = form.stock_issued_to
      ∧ entry.Notes = form.notes := by
  refine ⟨submission_entry form (generate_txn_id now) now,
    ?_, ?_, rfl, rfl, rfl, rfl, rfl, rfl, rfl, rfl, rfl, rfl⟩
  · simp only [installer_submit, if_neg h1, if_neg h2, load_data_columns]
  · simp only [installer_submit, if_neg h1, if_neg h2]

theorem C1_witness :
    demoForm.meter_type ≠ [] ∧ demoForm.stock_issued_to ≠ "" ∧
    (∃ entry : Row,
      (installer_submit demoState0 demoForm demoTime).1.dataFile
          = some (save_data ⟨expectedColumns,
              (load_data demoState0.dataFile).rows ++ [entry]⟩)
      ∧ (installer_submit demoState0 demoForm demoTime).2
          = SubmitOutcome.success (generate_txn_id demoTime)
      ∧ entry.Status = "Pending Approval"
      ∧ entry.Transaction_ID = generate_txn_id demoTime
      ∧ generate_txn_id demoTime = "TXN-" ++ String.mk (formatCompact demoTime)
      ∧ entry.Date = String.mk (formatDate demoTime)
      ∧ entry.Action = "Stock Out"
      ∧ entry.Meter_Type = String.intercalate ", " demoForm.meter_type
      ∧ entry.Meter_Quantity = demoForm.meter_qty
      ∧ entry.CIU_Quantity = demoForm.ciu_qty
      ∧ entry.Stock_Issued_To = demoForm.stock_issued_to
      ∧ entry.Notes = demoForm.notes) :=
  ⟨by decide, by decide,
    C1_createTransaction_appends demoState0 demoForm demoTime (by decide) (by decide)⟩

/-- Modelled from the spec: the error taxonomy names `NotFoundError`
("Fails with `NotFoundError` if `transactionId` not present"); the code of
`admin_ui` has no failing path, so the error type exists only on the spec
side of the comparison. -/
inductive AdminError
  | notFound
deriving DecidableEq, Repr

deriving instance DecidableEq for Except

/-- Modelled from the spec: `setStatus(table, transactionId, newStatus)`
that "fails with `NotFoundError` if `transactionId` not present" and
otherwise overwrites the matching status. -/
def setStatus_spec (rows : List Row) (txn s : String) : Except AdminError (List Row) :=
  if rows.any (fun r => decide (r.Transaction_ID = txn)) then
    Except.ok (set_status rows txn s)
  else Except.error AdminError.notFound

/-- C2 counterexample: acting on the absent id "TXN-000" does not fail —
the spec-side `setStatus` demands `NotFoundError`, but the code's status
assignment matches no row, changes nothing, and the handler re-persists the
unchanged ledger and returns normally. -/
theorem C2_counterexample :
    setStatus_spec [demoRow] "TXN-000" "Approved" = Except.error AdminError.notFound
    ∧ set_status [demoRow] "TXN-000" "Approved" = [demoRow]
    ∧ admin_set_status demoState1 "TXN-000" "Approved" = demoState1 := by decide

/-- C2 (amended): the approve/reject handler never fails: it always persists
`set_status` of the loaded rows; if the id is absent the table is unchanged
(no error is raised), and if present every matching row's status field is
overwritten with the new status. -/
theorem C2_setStatus_behavior (st : AppState) (txn s : String) :
    admin_set_status st txn s
        = { st with dataFile := some (save_data ⟨expectedColumns,
              set_status (load_data st.dataFile).rows txn s⟩) }
    ∧ (txn ∉ (load_data st.dataFile).rows.map Row.Transaction_ID →
        set_status (load_data st.dataFile).rows txn s = (load_data st.dataFile).rows)
    ∧ (∀ r ∈ set_status (load_data st.dataFile).rows txn s,
        r.Transaction_ID = txn → r.Status = s) := by
  refine ⟨?_, ?_, ?_⟩
  · simp only [admin_set_status, load_data_columns]
  · intro hnot
    have hne : ∀ r ∈ (load_data st.dataFile).rows, r.Transaction_ID ≠ txn := by
      intro r hr heq
      exact hnot (heq ▸ List.mem_map_of_mem Row.Transaction_ID hr)
    rw [set_status]
    have hmapeq : (load_data st.dataFile).rows.map
        (fun r => if r.Transaction_ID = txn then { r with Status := s } else r)
          = (load_data st.dataFile).rows.map id :=
      List.map_congr_left fun r hr => by rw [if_neg (hne r hr)]; rfl
    rw [hmapeq, List.map_id]
  · intro r hr hid
    rw [set_status] at hr
    obtain ⟨r0, hr0, rfl⟩ := List.mem_map.mp hr
    by_cases h : r0.Transaction_ID = txn
    · rw [if_pos h]
    · rw [if_neg h] at hid ⊢
      exact absurd hid h

theorem C2_witness :
    "TXN-000" ∉ (load_data demoState1.dataFile).rows.map Row.Transaction_ID
    ∧ set_status (load_data demoState1.dataFile).rows "TXN-000" "Approved"
        = (load_data demoState1.dataFile).rows :=
  ⟨by decide, (C2_setStatus_behavior demoState1 "TXN-000" "Approved").2.1 (by decide)⟩

/-- Modelled from the spec: an "empty/blank" string — empty or nothing but
whitespace ("fails with `ValidationError` if `meterTypes` is empty or
`issuedTo` is empty/blank"). -/
def isBlank (s : String) : Bool := s.data.all Char.isWhitespace

/-- C3 counterexample: a whitespace-only issued-to field is blank, yet the
submission succeeds — validation only rejects the empty string, so the
claimed "if and only if ... empty/blank" equivalence fails. -/
theorem C3_counterexample :
    isBlank blankForm.stock_issued_to = true
    ∧ (installer_submit demoState0 blankForm demoTime).2.isWarning = false
    ∧ ¬ ((installer_submit demoState0 blankForm demoTime).2.isWarning = true ↔
        (blankForm.meter_type = [] ∨ isBlank blankForm.stock_issued_to = true)) := by
  decide

/-- C3 (amended): `createTransaction` is rejected by validation exactly when
the meter-type list is empty or the issued-to string is empty (quantities
are not validated), and a rejected submission changes nothing: no photo is
stored and the ledger file is untouched. -/
theorem C3_validation_iff (st : AppState) (form : SubmitForm) (now : Timestamp) :
    ((installer_submit st form now).2.isWarning = true ↔
      (form.meter_type = [] ∨ form.stock_issued_to = ""))
    ∧ ((installer_submit st form now).2.isWarning = true →
        (installer_submit st form now).1 = st) := by
  by_cases h1 : form.meter_type = []
  · simp [installer_submit, h1, SubmitOutcome.isWarning]
  · by_cases h2 : form.stock_issued_to = ""
    · simp [installer_submit, h1, h2, SubmitOutcome.isWarning]
    · simp [installer_submit, h1, h2, SubmitOutcome.isWarning]

theorem C3_witness :
    (installer_submit demoState0 emptyForm demoTime).2.isWarning = true
    ∧ (installer_submit demoState0 emptyForm demoTime).1 = demoState0 := by
  have h := C3_validation_iff demoState0 emptyForm demoTime
  have hw : (installer_submit demoState0 emptyForm demoTime).2.isWarning = true :=
    h.1.mpr (Or.inl rfl)
  exact ⟨hw, h.2 hw⟩

/-- C4: for each concrete status the dashboard filter returns exactly the
rows with that status, sorted by timestamp (the `Date` column) descending;
"All" returns every row, sorted the same way. -/
theorem C4_filter_by_status_correct (rows : List Row) (s : String)
    (hs : s ∈ ["Pending Approval", "Approved", "Rejected"]) :
    ((filter_by_status rows s).Perm (rows.filter (fun r => decide (r.Status = s)))
      ∧ List.Sorted dateDesc (filter_by_status rows s))
    ∧ ((filter_by_status rows "All").Perm rows
      ∧ List.Sorted dateDesc (filter_by_status rows "All")) := by
  have hsA : s ≠ "All" := by
    simp only [List.mem_cons, List.mem_singleton, List.not_mem_nil, or_false] at hs
    rcases hs with rfl | rfl | rfl <;> decide
  refine ⟨⟨?_, ?_⟩, ?_, ?_⟩
  · simp only [filter_by_status, if_neg hsA]
    exact List.perm_insertionSort _ _
  · simp only [filter_by_status, if_neg hsA]
    exact List.sorted_insertionSort _ _
  · simp only [filter_by_status, if_pos rfl]
    exact List.perm_insertionSort _ _
  · simp only [filter_by_status]
    exact List.sorted_insertionSort _ _

theorem C4_witness :
    ((filter_by_status demoRows "Approved").Perm
        (demoRows.filter (fun r => decide (r.Status = "Approved")))
      ∧ List.Sorted dateDesc (filter_by_status demoRows "Approved"))
    ∧ ((filter_by_status demoRows "All").Perm demoRows
      ∧ List.Sorted dateDesc (filter_by_status demoRows "All")) :=
  C4_filter_by_status_correct demoRows "Approved" (by decide)

/-- C5: the manager summary has one group per distinct (meter type, status)
key of the table; each group carries the exact `Meter_Quantity` and
`CIU_Quantity` sums over the rows sharing its key, and each quantity summed
over all groups equals that quantity summed over the whole table. -/
theorem C5_summarize_correct (rows : List Row) :
    (∀ g ∈ summarize rows,
        g.2.1 = fiberMeterSum rows g.1 ∧ g.2.2 = fiberCiuSum rows g.1)
    ∧ (∀ r ∈ rows, rowKey r ∈ (summarize rows).map (fun g => g.1))
    ∧ ((summarize rows).map (fun g => g.2.1)).sum = (rows.map Row.Meter_Quantity).sum
    ∧ ((summarize rows).map (fun g => g.2.2)).sum = (rows.map Row.CIU_Quantity).sum := by
  refine ⟨?_, ?_, ?_, ?_⟩
  · intro g hg
    rw [summarize] at hg
    obtain ⟨k, _, rfl⟩ := List.mem_map.mp hg
    exact ⟨rfl, rfl⟩
  · intro r hr
    have hkeys : (summarize rows).map (fun g => g.1) = (rows.map rowKey).dedup := by
      rw [summarize, List.map_map]
      exact List.map_id' _
    rw [hkeys]
    exact List.mem_dedup.mpr (List.mem_map_of_mem rowKey hr)
  · rw [summarize, List.map_map]
    exact sum_map_fiber_partition rowKey Row.Meter_Quantity ((rows.map rowKey).dedup) rows
      (List.nodup_dedup _)
      (fun x hx => List.mem_dedup.mpr (List.mem_map_of_mem rowKey hx))
  · rw [summarize, List.map_map]
    exact sum_map_fiber_partition rowKey Row.CIU_Quantity ((rows.map rowKey).dedup) rows
      (List.nodup_dedup _)
      (fun x hx => List.mem_dedup.mpr (List.mem_map_of_mem rowKey hx))

theorem C5_witness :
    (∀ g ∈ summarize demoRows,
        g.2.1 = fiberMeterSum demoRows g.1 ∧ g.2.2 = fiberCiuSum demoRows g.1)
    ∧ (∀ r ∈ demoRows, rowKey r ∈ (summarize demoRows).map (fun g => g.1))
    ∧ ((summarize demoRows).map (fun g => g.2.1)).sum
        = (demoRows.map Row.Meter_Quantity).sum
    ∧ ((summarize demoRows).map (fun g => g.2.2)).sum
        = (demoRows.map Row.CIU_Quantity).sum :=
  C5_summarize_correct demoRows

/-- C7: `load` never fails: a missing ledger file, or contents that cannot
be read back as the fixed schema, yield an empty table whose columns are
exactly Date, Transaction_ID, Action, Meter_Type, Meter_Quantity,
CIU_Quantity, Stock_Issued_To, Photo_Path, Status, Notes. -/
theorem C7_load_missing_or_corrupt (cs : List Char) (h : parseFile cs = none) :
    load_data (some cs) = ⟨expectedColumns, []⟩
    ∧ load_data none = ⟨expectedColumns, []⟩ := by
  constructor
  · simp only [load_data, h]
  · rfl

/-- Contents that do not parse as the ledger schema. -/
def corruptFile : List Char := "not,a,ledger".data

theorem C7_witness :
    parseFile corruptFile = none
    ∧ load_data (some corruptFile) = ⟨expectedColumns, []⟩ :=
  ⟨by decide, (C7_load_missing_or_corrupt corruptFile (by decide)).1⟩

/-- C8: for an id present in the ledger, approving twice leaves the same
final disk state as approving once. -/
theorem C8_approve_idempotent (st : AppState) (txn : String)
    (_h : txn ∈ (load_data st.dataFile).rows.map Row.Transaction_ID) :
    admin_set_status (admin_set_status st txn "Approved") txn "Approved"
      = admin_set_status st txn "Approved" :=
  admin_set_status_idem st (by decide)

theorem C8_witness :
    "TXN-20240105102030" ∈ (load_data demoState1.dataFile).rows.map Row.Transaction_ID
    ∧ admin_set_status (admin_set_status demoState1 "TXN-20240105102030" "Approved")
        "TXN-20240105102030" "Approved"
      = admin_set_status demoState1 "TXN-20240105102030" "Approved" :=
  ⟨by decide, C8_approve_idempotent demoState1 "TXN-20240105102030" (by decide)⟩

/-- C9: submissions whose creation timestamps fall in pairwise distinct
seconds get pairwise distinct transaction identifiers. -/
theorem C9_txn_ids_distinct (ts : List Timestamp) (hv : ∀ t ∈ ts, t.valid)
    (hd : ts.Pairwise (· ≠ ·)) :
    (ts.map generate_txn_id).Pairwise (· ≠ ·) := by
  rw [List.pairwise_map]
  refine hd.imp_of_mem ?_
  intro a b ha hb hne heq
  exact hne (generate_txn_id_injective (hv a ha) (hv b hb) heq)

theorem C9_witness :
    (∀ t ∈ [demoTime, demoTime2], t.valid)
    ∧ [demoTime, demoTime2].Pairwise (· ≠ ·)
    ∧ ([demoTime, demoTime2].map generate_txn_id).Pairwise (· ≠ ·) :=
  ⟨by decide, by decide, C9_txn_ids_distinct [demoTime, demoTime2] (by decide) (by decide)⟩

/-- C10: the approve/reject assignment rewrites the status of every row
whose `Transaction_ID` equals the selected id (so duplicates are all
overwritten together), leaves every other column and every other row
untouched, and the handler persists exactly that updated table. -/
theorem C10_set_status_frame (rows : List Row) (txn s : String) (st : AppState)
    (_hs : s = "Approved" ∨ s = "Rejected") :
    (set_status rows txn s).length = rows.length
    ∧ (∀ i : Nat, (set_status rows txn s)[i]?
        = rows[i]?.map (fun r =>
            if r.Transaction_ID = txn then { r with Status := s } else r))
    ∧ admin_set_status st txn s
        = { st with dataFile := some (save_data ⟨expectedColumns,
              set_status (load_data st.dataFile).rows txn s⟩) } := by
  refine ⟨?_, ?_, ?_⟩
  · rw [set_status, List.length_map]
  · intro i
    rw [set_status, List.getElem?_map]
  · simp only [admin_set_status, load_data_columns]

theorem C10_witness :
    (set_status demoRows "TXN-20240105102030" "Approved").length = demoRows.length
    ∧ (∀ i : Nat, (set_status demoRows "TXN-20240105102030" "Approved")[i]?
        = demoRows[i]?.map (fun r =>
            if r.Transaction_ID = "TXN-20240105102030" then { r with Status := "Approved" }
            else r))
    ∧ admin_set_status demoState1 "TXN-20240105102030" "Approved"
        = { demoState1 with dataFile := some (save_data ⟨expectedColumns,
              set_status (load_data demoState1.dataFile).rows "TXN-20240105102030"
                "Approved"⟩) } :=
  C10_set_status_frame demoRows "TXN-20240105102030" "Approved" demoState1 (Or.inl rfl)

end SmartMeter
